import Mathlib

set_option allowUnsafeReducibility true

attribute [local semireducible] Rat.mul Rat.div Rat.sub Rat.add Rat.inv Rat.neg

deriving instance DecidableEq for Except

/-!
Verification of the api.deepersensor streaming gateway core.

The definitions below are a shallow embedding of the Rust sources:
  * `src/crates/model/src/lib.rs`  — chat data types, `OllamaProvider::chat_stream`
    (newline-frame extraction, JSON frame decoding, `done` handling);
  * `src/api/src/rate_limit.rs`    — `TokenBucket::new`, `TokenBucket::allow`,
    `rate_limit`;
  * `src/crates/api/src/validation.rs` — `validate_message_content`,
    `validate_model_name`;
  * `src/crates/api/src/routes.rs` — `validate_chat`, the `chat` aggregate
    handler and the `chat_stream_sse` incremental handler;
  * `src/crates/core/src/error.rs` — `ApiError`.

Conventions of the embedding:
  * machine integers (`u64`) become `Nat`/`Int`; `available` is carried as an
    `Int` so that non-negativity is a proved invariant rather than a feature
    of the carrier type;
  * `Instant`/`f64` time becomes exact rational time (`Rat`); the code's
    `f64` rounding is abstracted to exact real arithmetic, and
    `(x as u64)` on a non-negative float becomes `Rat.floor`;
  * upstream bytes become `List Char` (the streams under test are ASCII, so
    `String::from_utf8_lossy` is the identity on them);
  * `serde_json::Value` (a third-party library) is modelled by the `Json`
    inductive together with its `get` / `as_str` / `as_bool` accessors;
    textual JSON parsing (`serde_json::from_str`) is an external-library
    function and is therefore a parameter of the stream translator
    (`decodeFrame` below); concrete instantiations are supplied where
    concrete runs are evaluated.
-/

namespace DeeperSensor

/-! ## JSON values (model of `serde_json::Value`) -/

/-- Model of `serde_json::Value`: null, booleans, numbers, strings, arrays
and objects (an object is a list of key/value pairs looked up by key). -/
inductive Json where
  | null : Json
  | bool (b : Bool) : Json
  | num (n : Int) : Json
  | str (s : String) : Json
  | arr (elems : List Json) : Json
  | obj (fields : List (String × Json)) : Json

/-- Key lookup in a JSON object's field list (first match wins). -/
def findField : List (String × Json) → String → Option Json
  | [], _ => none
  | (k, v) :: rest, key => if k = key then some v else findField rest key

/-- Model of `Value::get(key)`: a lookup on objects, `None` on anything else. -/
def Json.get : Json → String → Option Json
  | .obj fields, key => findField fields key
  | _, _ => none

/-- Model of `Value::as_str`. -/
def Json.as_str : Json → Option String
  | .str s => some s
  | _ => none

/-- Model of `Value::as_bool`. -/
def Json.as_bool : Json → Option Bool
  | .bool b => some b
  | _ => none

/-! ## Chat data types (`src/crates/model/src/lib.rs`) -/

/-- `pub struct ChatMessage { pub role: String, pub content: String }` -/
structure ChatMessage where
  role : String
  content : String
deriving Repr, DecidableEq

/-- `pub struct ChatRequest { pub model: String, pub messages: Vec<ChatMessage> }` -/
structure ChatRequest where
  model : String
  messages : List ChatMessage
deriving Repr, DecidableEq

/-- `pub struct ChatChunk { pub model: String, pub content: String, pub done: bool }` -/
structure ChatChunk where
  model : String
  content : String
  done : Bool
deriving Repr, DecidableEq

/-- `pub enum ModelError { Upstream(String), Timeout, Other(String) }` -/
inductive ModelError where
  | Upstream (msg : String)
  | Timeout
  | Other (msg : String)
deriving Repr, DecidableEq

/-- The `thiserror` `Display` strings of `ModelError`. -/
def ModelError.toString : ModelError → String
  | .Upstream s => "Upstream request failed: " ++ s
  | .Timeout => "Timeout"
  | .Other s => "Other: " ++ s

/-- `pub type ModelResult<T> = Result<T, ModelError>` -/
abbrev ModelResult (α : Type) := Except ModelError α

/-! ## Frame extraction and decoding (`OllamaProvider::chat_stream`) -/

/-- The type of the modelled `serde_json::from_str` applied to one frame:
given the bytes of a line (delimiter already stripped) it either produces a
JSON value or a parse-error message. -/
abbrev FrameDecoder := List Char → Except String Json

/-- `buffer.iter().position(|&b| b == b'\n')` followed by
`buffer.split_to(newline_pos + 1)`: splits off the first newline-terminated
line, returning the line (without its delimiter) and the remaining bytes;
`none` when the buffer holds no delimiter. -/
def splitFirstLine : List Char → Option (List Char × List Char)
  | [] => none
  | c :: cs =>
    if c = '\n' then some ([], cs)
    else (splitFirstLine cs).map (fun p => (c :: p.1, p.2))

/-- Rust `char::is_whitespace` restricted to the ASCII range that can occur
in these byte streams. -/
def isRustWhitespace (c : Char) : Bool :=
  c = ' ' || c = '\t' || c = '\n' || c = '\r' || c = '\x0b' || c = '\x0c'

/-- `line.trim().is_empty()`: a line trims to the empty string exactly when
every one of its characters is whitespace. -/
def trimIsEmpty (line : List Char) : Bool :=
  line.all isRustWhitespace

/-- The field extraction performed on a successfully parsed frame:

    let content = v.get("message").and_then(|m| m.get("content"))
                   .and_then(|c| c.as_str()).unwrap_or("");
    let done = v.get("done").and_then(|d| d.as_bool()).unwrap_or(false);
    yield ChatChunk { model: model.clone(), content: content.to_string(), done }
-/
def chunkOfJson (model : String) (v : Json) : ChatChunk :=
  let content := (((v.get "message").bind (fun m => m.get "content")).bind Json.as_str).getD ""
  let done := ((v.get "done").bind Json.as_bool).getD false
  { model := model, content := content, done := done }

/-- One round of the inner `while let Some(newline_pos) = ...` loop of
`chat_stream`, fuelled for structural recursion (the loop consumes at least
one byte per iteration, so `buf.length + 1` units of fuel always suffice;
`processBuffer` below applies exactly that much).

Returns the items emitted while draining the buffer, the bytes retained in
the buffer, and whether the generator terminated with a parse error (the
`?` on `serde_json::from_str` aborts the whole stream).  A chunk with
`done = true` exits the loop — the Rust `break` — leaving any further
buffered bytes unprocessed but the generator alive. -/
def processBufferF (decodeFrame : FrameDecoder) (model : String) :
    Nat → List Char → List (ModelResult ChatChunk) × List Char × Bool
  | 0, buf => ([], buf, false)
  | fuel + 1, buf =>
    match splitFirstLine buf with
    | none => ([], buf, false)
    | some (line, rest) =>
      if trimIsEmpty line then
        processBufferF decodeFrame model fuel rest
      else
        match decodeFrame line with
        | .error e => ([.error (.Other ("JSON parse error: " ++ e))], rest, true)
        | .ok v =>
          let c := chunkOfJson model v
          if c.done then ([.ok c], rest, false)
          else
            let r := processBufferF decodeFrame model fuel rest
            (.ok c :: r.1, r.2.1, r.2.2)

/-- The inner line-draining loop with its always-sufficient fuel. -/
def processBuffer (decodeFrame : FrameDecoder) (model : String) (buf : List Char) :
    List (ModelResult ChatChunk) × List Char × Bool :=
  processBufferF decodeFrame model (buf.length + 1) buf

/-- The outer `while let Some(chunk) = byte_stream.next().await` loop of the
`try_stream!` in `chat_stream`.  Each upstream read is either bytes or a
network error (`chunk.map_err(|e| ModelError::Upstream(...))?`, which emits
the error and ends the generator).  Bytes are appended to the carried buffer
and the buffer is drained by `processBuffer`; a parse error ends the whole
stream, otherwise the generator proceeds to the next read.  When the
upstream ends, any retained bytes are discarded with the generator. -/
def chat_stream_run (decodeFrame : FrameDecoder) (model : String) :
    List (Except String (List Char)) → List Char → List (ModelResult ChatChunk)
  | [], _buf => []
  | .error e :: _rest, _buf => [.error (.Upstream e)]
  | .ok bytes :: rest, buf =>
    let r := processBuffer decodeFrame model (buf ++ bytes)
    if r.2.2 then r.1
    else r.1 ++ chat_stream_run decodeFrame model rest r.2.1

/-- The collaborators behind one `chat_stream` call: the outcome of issuing
the upstream POST (send failure or non-success status both become
`ModelError::Upstream` before any frame is read), the frame decoder, and
the sequence of network reads the response body delivers. -/
structure ProviderModel where
  openResult : Except String Unit
  decodeFrame : FrameDecoder
  netChunks : List (Except String (List Char))

/-- `OllamaProvider::chat_stream`: fail at open, or return the translated
stream (the `model` field of every chunk is the request's model string). -/
def chat_stream (prov : ProviderModel) (req : ChatRequest) :
    Except ModelError (List (ModelResult ChatChunk)) :=
  match prov.openResult with
  | .error e => .error (.Upstream e)
  | .ok _ => .ok (chat_stream_run prov.decodeFrame req.model prov.netChunks [])

/-! ## Token bucket rate limiter (`src/api/src/rate_limit.rs`) -/

/-- `pub struct TokenBucket { tokens: Arc<Mutex<(u64, Instant)>>, rate_per_min: u64, burst: u64 }`.
The mutex-guarded pair is flattened into the fields `available` / `last`;
`available` is carried as `Int` so that `0 ≤ available` is a proved
invariant (in the source the carrier `u64` cannot show an underflow). -/
structure TokenBucket where
  available : Int
  last : Rat
  rate_per_min : Nat
  burst : Nat
deriving Repr, DecidableEq

/-- `TokenBucket::new`: `Mutex::new((burst, Instant::now()))` — a fresh
bucket holds `burst` tokens and stamps the creation instant. -/
def TokenBucket.new (rate_per_min burst : Nat) (now : Rat) : TokenBucket :=
  { available := burst, last := now, rate_per_min := rate_per_min, burst := burst }

/-- `TokenBucket::allow`, with `Instant::now()` passed in as `now`:

    let per_sec = self.rate_per_min as f64 / 60.0;
    let elapsed = now.duration_since(*last).as_secs_f64();
    if elapsed > 0.0 {
        let refill = (per_sec * elapsed) as u64;
        if refill > 0 { *available = (*available + refill).min(self.burst); *last = now; }
    }
    if *available > 0 { *available -= 1; true } else { false }
-/
def TokenBucket.allow (b : TokenBucket) (now : Rat) : Bool × TokenBucket :=
  let per_sec : Rat := (b.rate_per_min : Rat) / 60
  let elapsed : Rat := now - b.last
  let st : Int × Rat :=
    if elapsed > 0 then
      let refill : Int := Rat.floor (per_sec * elapsed)
      if refill > 0 then (min (b.available + refill) (b.burst : Int), now)
      else (b.available, b.last)
    else (b.available, b.last)
  if st.1 > 0 then (true, { b with available := st.1 - 1, last := st.2 })
  else (false, { b with available := st.1, last := st.2 })

/-- The allow/deny outcomes of a sequence of `allow` calls at the given
instants, together with the final bucket. -/
def allowRun (b : TokenBucket) : List Rat → List Bool × TokenBucket
  | [] => ([], b)
  | t :: ts =>
    let step := b.allow t
    let rest := allowRun step.2 ts
    (step.1 :: rest.1, rest.2)

/-- The bucket states observed after each `allow` call of a sequence. -/
def allowTrace (b : TokenBucket) : List Rat → List TokenBucket
  | [] => []
  | t :: ts =>
    let b' := (b.allow t).2
    b' :: allowTrace b' ts

/-- `pub async fn rate_limit(state, ip)` for one key's bucket: pass-through
when the feature is disabled, otherwise one `allow` call; a denial is
`ApiError::RateLimited`. -/
def rate_limit (enabled : Bool) (b : TokenBucket) (now : Rat) :
    Except Unit Unit × TokenBucket :=
  if !enabled then (.ok (), b)
  else
    let step := b.allow now
    if step.1 then (.ok (), step.2) else (.error (), step.2)

/-! ## API errors and validation
(`src/crates/core/src/error.rs`, `src/crates/api/src/validation.rs`) -/

/-- `pub enum ApiError` of `ds_core::error`. -/
inductive ApiError where
  | NotFound
  | Unauthorized
  | Forbidden
  | BadRequest (msg : String)
  | Unprocessable (msg : String)
  | RateLimited
  | Internal
deriving Repr, DecidableEq

/-- `pub fn validate_message_content(content: &str, max_length: usize)`. -/
def validate_message_content (content : String) (max_length : Nat) :
    Except ApiError Unit :=
  if content.isEmpty then
    .error (.Unprocessable "message content cannot be empty")
  else if content.length > max_length then
    .error (.Unprocessable ("message too long (max " ++ toString max_length ++ " characters)"))
  else
    .ok ()

/-- `pub fn validate_model_name(model: &str)`.  The Rust
`model.trim().is_empty()` holds exactly when every character of `model` is
whitespace, which is how the first test is phrased here. -/
def validate_model_name (model : String) : Except ApiError Unit :=
  if trimIsEmpty model.toList then
    .error (.Unprocessable "model name is required")
  else if model.length > 100 then
    .error (.Unprocessable "model name too long")
  else if !(model.toList.all (fun c =>
      c.isAlphanum || c = '-' || c = '_' || c = ':' || c = '.')) then
    .error (.Unprocessable "invalid characters in model name")
  else
    .ok ()

/-- `struct ChatIn { model: String, messages: Vec<ChatMessage> }` of
`src/crates/api/src/routes.rs`. -/
structure ChatIn where
  model : String
  messages : List ChatMessage
deriving Repr, DecidableEq

/-- `struct ChatOut { model, content, done }` of the aggregate response. -/
structure ChatOut where
  model : String
  content : String
  done : Bool
deriving Repr, DecidableEq

/-- The `for m in &input.messages { validate_message_content(&m.content, 8000)?; }`
loop of `validate_chat`: first failure aborts. -/
def validate_messages : List ChatMessage → Except ApiError Unit
  | [] => .ok ()
  | m :: rest =>
    match validate_message_content m.content 8000 with
    | .error e => .error e
    | .ok _ => validate_messages rest

/-- `fn validate_chat(input: &ChatIn)` of `src/crates/api/src/routes.rs`. -/
def validate_chat (input : ChatIn) : Except ApiError Unit :=
  match validate_model_name input.model with
  | .error e => .error e
  | .ok _ =>
    if input.messages.isEmpty then .error (.Unprocessable "messages required")
    else if input.messages.length > 64 then
      .error (.Unprocessable "too many messages (max 64)")
    else validate_messages input.messages

/-! ## Chat handlers (`src/crates/api/src/routes.rs`) -/

/-- The externally visible collaborator calls a handler makes, in order.
`rateLimitAcquire` is a `rate_limit`/`TokenBucket::allow` call,
`providerOpen` is a `provider.chat_stream` call. -/
inductive PipelineStep where
  | rateLimitAcquire
  | providerOpen
deriving Repr, DecidableEq

/-- The aggregate collection loop of the `chat` handler:

    while let Some(chunk) = stream.next().await {
        let c = chunk.map_err(|_| ApiError::Internal)?;
        out.push(ChatOut { model: c.model, content: c.content, done: c.done });
    }
-/
def aggregate : List (ModelResult ChatChunk) → Except ApiError (List ChatOut)
  | [] => .ok []
  | .error _ :: _ => .error .Internal
  | .ok c :: rest =>
    match aggregate rest with
    | .error e => .error e
    | .ok outs => .ok ({ model := c.model, content := c.content, done := c.done } :: outs)

/-- The `async fn chat` handler of `src/crates/api/src/routes.rs` (lines
192–240): `validate_chat(&input)?`, then `provider.chat_stream(...)` (open
failure becomes `ApiError::Internal`), then the aggregate loop.  The second
component records the collaborator calls the handler performed. -/
def chat (prov : ProviderModel) (input : ChatIn) :
    Except ApiError (List ChatOut) × List PipelineStep :=
  match validate_chat input with
  | .error e => (.error e, [])
  | .ok _ =>
    match chat_stream prov { model := input.model, messages := input.messages } with
    | .error _ => (.error .Internal, [.providerOpen])
    | .ok out => (aggregate out, [.providerOpen])

/-- One downstream Server-Sent-Events element: the event name and the JSON
payload carried in its `data:` field (serialisation of that value to text is
`serde_json::to_string`, an external-library step kept at the value level). -/
structure SseEvent where
  event : String
  data : Json

/-- `serde_json::to_string(&chat_chunk)` at the value level: the derived
`Serialize` emits the fields in declaration order. -/
def chatChunkJson (c : ChatChunk) : Json :=
  .obj [("model", .str c.model), ("content", .str c.content), ("done", .bool c.done)]

/-- The per-item mapping of `chat_stream_sse`:

    Ok(chat_chunk) => Ok(Event::default().event("chunk").data(json)),
    Err(e) => Ok(Event::default().event("error").data(json!({"error": e.to_string()})))

Both arms produce `Ok` — a stream error is delivered in-band and never
closes the SSE connection. -/
def sse_map_item : ModelResult ChatChunk → Except String SseEvent
  | .ok c => .ok { event := "chunk", data := chatChunkJson c }
  | .error e => .ok { event := "error", data := .obj [("error", .str e.toString)] }

/-- The `async fn chat_stream_sse` handler (lines 242–283): validate, open
the stream (open failure becomes `ApiError::Internal`), then map every
stream element through `sse_map_item`. -/
def chat_stream_sse (prov : ProviderModel) (input : ChatIn) :
    Except ApiError (List (Except String SseEvent)) × List PipelineStep :=
  match validate_chat input with
  | .error e => (.error e, [])
  | .ok _ =>
    match chat_stream prov { model := input.model, messages := input.messages } with
    | .error _ => (.error .Internal, [.providerOpen])
    | .ok out => (.ok (out.map sse_map_item), [.providerOpen])

/-! ## Concrete fixtures for witnesses and counterexamples -/

/-- The bytes of the frame `\x7b"done":true\x7d`. -/
def demoFrameDone : List Char := "\x7b\"done\":true\x7d".toList

/-- The bytes of the frame `\x7b"message":\x7b"content":"x"\x7d,"done":false\x7d`. -/
def demoFrameHi : List Char :=
  "\x7b\"message\":\x7b\"content\":\"x\"\x7d,\"done\":false\x7d".toList

/-- A line that is not valid JSON. -/
def demoFrameBad : List Char := "notjson".toList

/-- The parse of `demoFrameDone`. -/
def demoJsonDone : Json := .obj [("done", .bool true)]

/-- The parse of `demoFrameHi`. -/
def demoJsonHi : Json :=
  .obj [("message", .obj [("content", .str "x")]), ("done", .bool false)]

/-- A concrete frame decoder agreeing with `serde_json::from_str` on the
three fixture lines above (everything else is rejected, as `serde_json`
rejects non-JSON text). -/
def demoDecoder : FrameDecoder := fun line =>
  if line = demoFrameDone then .ok demoJsonDone
  else if line = demoFrameHi then .ok demoJsonHi
  else .error "expected value"

/-- A concrete provider: successful open, fixture decoder, no reads. -/
def demoProvider : ProviderModel :=
  { openResult := .ok (), decodeFrame := demoDecoder, netChunks := [] }

/-! ## Structural lemmas about frame extraction -/

/-- When the sought delimiter is not in `line`, the first extracted frame of
`line ++ '\n' :: rest` is exactly `line`, with `rest` retained. -/
theorem splitFirstLine_append (line rest : List Char) (h : '\n' ∉ line) :
    splitFirstLine (line ++ '\n' :: rest) = some (line, rest) := by
  induction line with
  | nil => simp [splitFirstLine]
  | cons c cs ih =>
    have hc : ¬c = '\n' := fun hc => h (hc ▸ List.mem_cons_self c cs)
    have hcs : '\n' ∉ cs := fun hm => h (List.mem_cons_of_mem c hm)
    simp [splitFirstLine, hc, ih hcs]

/-- Draining an empty buffer emits nothing, for any fuel. -/
theorem processBufferF_nil (d : FrameDecoder) (m : String) :
    ∀ fuel, processBufferF d m fuel [] = ([], [], false) := by
  intro fuel
  cases fuel with
  | zero => rfl
  | succ n => simp [processBufferF, splitFirstLine]

/-- Normal form of one buffer-draining pass: either no parse error occurred
and every emitted item is an `Ok` chunk, or a parse error occurred and the
emitted items are `Ok` chunks followed by exactly one final error. -/
theorem processBufferF_shape (d : FrameDecoder) (m : String) :
    ∀ (fuel : Nat) (buf : List Char),
      (∃ cs : List ChatChunk, (processBufferF d m fuel buf).1 = cs.map Except.ok ∧
        (processBufferF d m fuel buf).2.2 = false) ∨
      (∃ (cs : List ChatChunk) (e : ModelError),
        (processBufferF d m fuel buf).1 = cs.map Except.ok ++ [.error e] ∧
        (processBufferF d m fuel buf).2.2 = true) := by
  intro fuel
  induction fuel with
  | zero => intro buf; exact .inl ⟨[], rfl, rfl⟩
  | succ n ih =>
    intro buf
    show
      (∃ cs : List ChatChunk, (processBufferF d m (n + 1) buf).1 = cs.map Except.ok ∧
        (processBufferF d m (n + 1) buf).2.2 = false) ∨ _
    cases hs : splitFirstLine buf with
    | none => exact .inl ⟨[], by simp [processBufferF, hs], by simp [processBufferF, hs]⟩
    | some p =>
      obtain ⟨line, rest⟩ := p
      by_cases hw : trimIsEmpty line
      · have hrw : processBufferF d m (n + 1) buf = processBufferF d m n rest := by
          simp [processBufferF, hs, hw]
        rw [hrw]; exact ih rest
      · cases hd : d line with
        | error e =>
          refine .inr ⟨[], .Other ("JSON parse error: " ++ e), ?_, ?_⟩ <;>
            simp [processBufferF, hs, hw, hd]
        | ok v =>
          by_cases hdone : (chunkOfJson m v).done
          · exact .inl ⟨[chunkOfJson m v], by simp [processBufferF, hs, hw, hd, hdone],
              by simp [processBufferF, hs, hw, hd, hdone]⟩
          · have hrw1 : (processBufferF d m (n + 1) buf).1 =
                .ok (chunkOfJson m v) :: (processBufferF d m n rest).1 := by
              simp [processBufferF, hs, hw, hd, hdone]
            have hrw2 : (processBufferF d m (n + 1) buf).2.2 =
                (processBufferF d m n rest).2.2 := by
              simp [processBufferF, hs, hw, hd, hdone]
            rcases ih rest with ⟨cs, h1, h2⟩ | ⟨cs, e, h1, h2⟩
            · exact .inl ⟨chunkOfJson m v :: cs, by rw [hrw1, h1]; rfl, by rw [hrw2, h2]⟩
            · exact .inr ⟨chunkOfJson m v :: cs, e, by rw [hrw1, h1]; rfl, by rw [hrw2, h2]⟩

/-- Normal form of a whole stream run: every emitted item is an `Ok` chunk,
except possibly a single error in final position. -/
theorem chat_stream_run_shape (d : FrameDecoder) (m : String) :
    ∀ (chunks : List (Except String (List Char))) (buf : List Char),
      (∃ cs : List ChatChunk, chat_stream_run d m chunks buf = cs.map Except.ok) ∨
      (∃ (cs : List ChatChunk) (e : ModelError),
        chat_stream_run d m chunks buf = cs.map Except.ok ++ [.error e]) := by
  intro chunks
  induction chunks with
  | nil => intro buf; exact .inl ⟨[], rfl⟩
  | cons hd tl ih =>
    intro buf
    cases hd with
    | error e => exact .inr ⟨[], .Upstream e, rfl⟩
    | ok bytes =>
      rcases processBufferF_shape d m ((buf ++ bytes).length + 1) (buf ++ bytes) with
        ⟨cs, h1, h2⟩ | ⟨cs, e, h1, h2⟩
      · have hrw : chat_stream_run d m (.ok bytes :: tl) buf =
            (processBuffer d m (buf ++ bytes)).1 ++
              chat_stream_run d m tl (processBuffer d m (buf ++ bytes)).2.1 := by
          simp only [chat_stream_run, processBuffer]
          rw [if_neg (by rw [h2]; exact Bool.false_ne_true)]
        rcases ih (processBuffer d m (buf ++ bytes)).2.1 with ⟨cs', h'⟩ | ⟨cs', e', h'⟩
        · exact .inl ⟨cs ++ cs', by
            rw [hrw, h']; show (processBufferF d m _ _).1 ++ _ = _
            rw [h1, List.map_append]⟩
        · exact .inr ⟨cs ++ cs', e', by
            rw [hrw, h']; show (processBufferF d m _ _).1 ++ _ = _
            rw [h1, List.map_append, List.append_assoc]⟩
      · refine .inr ⟨cs, e, ?_⟩
        simp only [chat_stream_run, processBuffer]
        rw [if_pos h2, h1]

/-- Once an error is emitted the sequence ends: an error can only sit in the
final position of a stream run. -/
theorem chat_stream_run_error_last (d : FrameDecoder) (m : String)
    (chunks : List (Except String (List Char))) (buf : List Char)
    (i : Nat) (e : ModelError)
    (h : (chat_stream_run d m chunks buf).get? i = some (.error e)) :
    i + 1 = (chat_stream_run d m chunks buf).length := by
  rcases chat_stream_run_shape d m chunks buf with ⟨cs, hr⟩ | ⟨cs, e', hr⟩
  · rw [hr] at h
    rw [List.get?_map] at h
    cases hc : cs.get? i with
    | none => rw [hc] at h; exact absurd h (by simp)
    | some c => rw [hc] at h; exact absurd h (by simp)
  · rw [hr] at h
    rcases lt_trichotomy i cs.length with hlt | heq | hgt
    · rw [List.get?_append (by simpa using hlt)] at h
      rw [List.get?_map] at h
      cases hc : cs.get? i with
      | none => rw [hc] at h; exact absurd h (by simp)
      | some c => rw [hc] at h; exact absurd h (by simp)
    · rw [hr, List.length_append, List.length_map, List.length_singleton, heq]
    · have : (cs.map Except.ok ++ [Except.error e']).get? i = none := by
        apply List.get?_eq_none.mpr
        simpa using hgt
      rw [this] at h; exact absurd h (by simp)

/-- Draining a buffer whose first line is malformed: one terminal error,
everything after the bad line retained untouched, generator dead. -/
theorem processBuffer_first_line_error (d : FrameDecoder) (m : String)
    (line tail : List Char) (e : String)
    (hnl : '\n' ∉ line) (hws : trimIsEmpty line = false) (hd : d line = .error e) :
    processBuffer d m (line ++ '\n' :: tail) =
      ([.error (.Other ("JSON parse error: " ++ e))], tail, true) := by
  simp only [processBuffer]
  simp [processBufferF, splitFirstLine_append line tail hnl, hws, hd]

/-- Draining a buffer holding exactly one well-formed line emits exactly its
decoded chunk. -/
theorem processBuffer_single_line_ok (d : FrameDecoder) (m : String)
    (line : List Char) (v : Json)
    (hnl : '\n' ∉ line) (hws : trimIsEmpty line = false) (hd : d line = .ok v) :
    processBuffer d m (line ++ ['\n']) = ([.ok (chunkOfJson m v)], [], false) := by
  simp only [processBuffer]
  by_cases hdone : (chunkOfJson m v).done
  · simp [processBufferF, splitFirstLine_append line [] hnl, hws, hd, hdone]
  · simp [processBufferF, splitFirstLine_append line [] hnl, hws, hd, hdone,
      processBufferF_nil]

/-! ## Spec-side definitions

These two definitions follow the specification's words rather than the
code, for the refinement comparison of the frame-to-chunk mapping: §4.3
reads "each extracted frame is parsed as a JSON object with fields
`message.content` (string, default empty) and `done` (boolean, default
false)". -/

/-- Spec-side reading of the `message.content` field: the string at
`message.content` if there is one, the empty string otherwise. -/
def specMessageContent (v : Json) : String :=
  match v.get "message" with
  | some msg =>
    match msg.get "content" with
    | some (.str s) => s
    | _ => ""
  | none => ""

/-- Spec-side reading of the `done` field: the boolean at `done` if there
is one, `false` otherwise. -/
def specDone (v : Json) : Bool :=
  match v.get "done" with
  | some (.bool b) => b
  | _ => false

/-! ## Claim theorems -/

/-- C1.  The claim states that once a `done = true` chunk has been emitted
no further chunk or error is ever emitted, even if more upstream bytes
exist after that frame's delimiter.  The code refutes this: `if done {
break; }` exits only the inner line-draining loop, so when the upstream
delivers a further network read, streaming resumes.  Here the upstream
delivers the `done = true` frame and then a second read holding a further
complete frame, and the run emits a second chunk after the `done` one. -/
theorem chat_stream_emits_chunk_after_done :
    chat_stream_run demoDecoder "m"
        [.ok (demoFrameDone ++ ['\n']), .ok (demoFrameHi ++ ['\n'])] [] =
      [.ok { model := "m", content := "", done := true },
       .ok { model := "m", content := "x", done := false }] := by decide

/-- C5.  The claim states that frame extraction is split-invariant: any
partition of the same total byte sequence into network reads yields the
same decoded chunks.  The code refutes this, again through the inner-loop
`break` on `done`: the same two-frame byte sequence yields one chunk when
delivered as a single read (the second frame is still buffered when the
upstream ends) but two chunks when delivered as two reads. -/
theorem frame_extraction_not_split_invariant :
    (demoFrameDone ++ '\n' :: (demoFrameHi ++ ['\n'])) =
        (demoFrameDone ++ ['\n']) ++ (demoFrameHi ++ ['\n']) ∧
    chat_stream_run demoDecoder "m"
        [.ok (demoFrameDone ++ '\n' :: (demoFrameHi ++ ['\n']))] [] =
      [.ok { model := "m", content := "", done := true }] ∧
    chat_stream_run demoDecoder "m"
        [.ok (demoFrameDone ++ ['\n']), .ok (demoFrameHi ++ ['\n'])] [] =
      [.ok { model := "m", content := "", done := true },
       .ok { model := "m", content := "x", done := false }] ∧
    chat_stream_run demoDecoder "m"
        [.ok (demoFrameDone ++ '\n' :: (demoFrameHi ++ ['\n']))] [] ≠
      chat_stream_run demoDecoder "m"
        [.ok (demoFrameDone ++ ['\n']), .ok (demoFrameHi ++ ['\n'])] [] := by
  refine ⟨by decide, by decide, by decide, by decide⟩

/-- C6.  A frame that fails to decode yields exactly one terminal error and
the sequence ends.  First conjunct: in any stream run an error can only be
the final element.  Second conjunct: when the first extracted frame is
malformed, the run consists of that single error — independent of the bytes
following the bad line in the same read (`tail`) and of any further
upstream reads (`more`), which are never consumed. -/
theorem malformed_frame_single_terminal_error :
    (∀ (d : FrameDecoder) (model : String)
        (chunks : List (Except String (List Char))) (buf : List Char)
        (i : Nat) (e : ModelError),
      (chat_stream_run d model chunks buf).get? i = some (.error e) →
      i + 1 = (chat_stream_run d model chunks buf).length) ∧
    (∀ (d : FrameDecoder) (model : String) (line : List Char) (e : String)
        (tail : List Char) (more : List (Except String (List Char))),
      d line = .error e → trimIsEmpty line = false → '\n' ∉ line →
      chat_stream_run d model (.ok (line ++ '\n' :: tail) :: more) [] =
        [.error (.Other ("JSON parse error: " ++ e))]) := by
  constructor
  · exact fun d model chunks buf i e h =>
      chat_stream_run_error_last d model chunks buf i e h
  · intro d model line e tail more hd hws hnl
    simp only [chat_stream_run, List.nil_append]
    rw [processBuffer_first_line_error d model line tail e hnl hws hd]
    rfl

/-- Witness for C6 at concrete inputs: a stream that fails at the network
level has its error in final position, and a stream whose first line is
`notjson` (followed by further bytes and a further pending read) emits the
single parse error. -/
theorem malformed_frame_single_terminal_error_witness :
    ((chat_stream_run demoDecoder "m" [.error "connection reset"] []).get? 0 =
        some (.error (.Upstream "connection reset")) ∧
      0 + 1 = (chat_stream_run demoDecoder "m" [.error "connection reset"] []).length) ∧
    (demoDecoder demoFrameBad = .error "expected value" ∧
      trimIsEmpty demoFrameBad = false ∧ '\n' ∉ demoFrameBad ∧
      chat_stream_run demoDecoder "m"
          [.ok (demoFrameBad ++ '\n' :: "zzz".toList), .ok (demoFrameHi ++ ['\n'])] [] =
        [.error (.Other "JSON parse error: expected value")]) :=
  ⟨⟨by decide, malformed_frame_single_terminal_error.1 demoDecoder "m"
      [.error "connection reset"] [] 0 (.Upstream "connection reset") (by decide)⟩,
   ⟨by rfl, by decide, by decide,
    malformed_frame_single_terminal_error.2 demoDecoder "m" demoFrameBad
      "expected value" ("zzz".toList) [.ok (demoFrameHi ++ ['\n'])]
      (by rfl) (by decide) (by decide)⟩⟩

/-- C9.  First conjunct: the chunk built from a parsed frame carries
exactly the spec-side `message.content` reading (string, default empty),
the spec-side `done` reading (boolean, default false) and the model string
passed in from the original request — in particular nothing of `v`, such as
a `model` field of the upstream payload, reaches the `model` field.  Second
conjunct: in a stream run, a read holding exactly one such frame emits
exactly that chunk. -/
theorem chunk_fields_from_frame_and_request_model :
    (∀ (model : String) (v : Json),
      chunkOfJson model v =
        { model := model, content := specMessageContent v, done := specDone v }) ∧
    (∀ (d : FrameDecoder) (model : String) (line : List Char) (v : Json),
      d line = .ok v → trimIsEmpty line = false → '\n' ∉ line →
      chat_stream_run d model [.ok (line ++ ['\n'])] [] =
        [.ok { model := model, content := specMessageContent v, done := specDone v }]) := by
  have hext : ∀ (model : String) (v : Json),
      chunkOfJson model v =
        { model := model, content := specMessageContent v, done := specDone v } := by
    intro model v
    simp only [chunkOfJson, specMessageContent, specDone]
    cases hm : v.get "message" with
    | none =>
      cases hd : v.get "done" with
      | none => simp [hm, hd]
      | some dv => cases dv <;> simp [hm, hd, Json.as_bool]
    | some mv =>
      cases hc : mv.get "content" with
      | none =>
        cases hd : v.get "done" with
        | none => simp [hm, hc, hd]
        | some dv => cases dv <;> simp [hm, hc, hd, Json.as_bool]
      | some cv =>
        cases hd : v.get "done" with
        | none => cases cv <;> simp [hm, hc, hd, Json.as_str]
        | some dv => cases cv <;> cases dv <;> simp [hm, hc, hd, Json.as_str, Json.as_bool]
  refine ⟨hext, ?_⟩
  intro d model line v hd hws hnl
  simp only [chat_stream_run, List.nil_append]
  rw [processBuffer_single_line_ok d model line v hnl hws hd]
  simp [chat_stream_run, hext]

/-- Witness for C9 at the concrete two-field frame: its decoded chunk is
`content = "x"`, `done = false`, `model` taken from the request. -/
theorem chunk_fields_from_frame_and_request_model_witness :
    (demoDecoder demoFrameHi = .ok demoJsonHi ∧
      trimIsEmpty demoFrameHi = false ∧ '\n' ∉ demoFrameHi) ∧
    chat_stream_run demoDecoder "req-model" [.ok (demoFrameHi ++ ['\n'])] [] =
      [.ok { model := "req-model", content := specMessageContent demoJsonHi,
             done := specDone demoJsonHi }] :=
  ⟨⟨by rfl, by decide, by decide⟩,
   chunk_fields_from_frame_and_request_model.2 demoDecoder "req-model" demoFrameHi
     demoJsonHi (by rfl) (by decide) (by decide)⟩

/-! ## Validation lemmas -/

/-- The message loop accepts a list exactly when it accepts every element. -/
theorem validate_messages_ok_iff (l : List ChatMessage) :
    validate_messages l = .ok () ↔
      ∀ m ∈ l, validate_message_content m.content 8000 = .ok () := by
  induction l with
  | nil => simp [validate_messages]
  | cons m rest ih =>
    simp only [validate_messages]
    cases h : validate_message_content m.content 8000 with
    | error e =>
      simp only [List.mem_cons]
      constructor
      · intro hfalse; exact absurd hfalse (by simp)
      · intro hall
        have hmm := hall m (.inl rfl)
        rw [h] at hmm; exact absurd hmm (by simp)
    | ok u =>
      simp only [List.mem_cons, ih]
      constructor
      · rintro hall m' (rfl | hm)
        · cases u; exact h
        · exact hall m' hm
      · intro hall m' hm; exact hall m' (.inr hm)

/-- `validate_message_content` accepts exactly the non-empty contents
within the length bound. -/
theorem validate_message_content_ok_iff (content : String) (max_length : Nat) :
    validate_message_content content max_length = .ok () ↔
      content ≠ "" ∧ content.length ≤ max_length := by
  simp only [validate_message_content]
  by_cases h1 : content.isEmpty
  · rw [if_pos h1]
    rw [String.isEmpty_iff] at h1
    simp [h1]
  · rw [if_neg h1]
    have hne : content ≠ "" := fun hc => h1 (hc ▸ rfl)
    by_cases h2 : content.length > max_length
    · simp [if_pos h2, hne, Nat.not_le.mpr h2]
    · simp [if_neg h2, hne, Nat.not_lt.mp h2]

/-- Every outcome of `validate_message_content` is `ok` or `Unprocessable`. -/
theorem validate_message_content_shape (content : String) (max_length : Nat) :
    validate_message_content content max_length = .ok () ∨
      ∃ s, validate_message_content content max_length = .error (.Unprocessable s) := by
  simp only [validate_message_content]
  split_ifs
  · exact .inr ⟨_, rfl⟩
  · exact .inr ⟨_, rfl⟩
  · exact .inl rfl

/-- Every outcome of `validate_model_name` is `ok` or `Unprocessable`. -/
theorem validate_model_name_shape (model : String) :
    validate_model_name model = .ok () ∨
      ∃ s, validate_model_name model = .error (.Unprocessable s) := by
  simp only [validate_model_name]
  split_ifs
  · exact .inr ⟨_, rfl⟩
  · exact .inr ⟨_, rfl⟩
  · exact .inr ⟨_, rfl⟩
  · exact .inl rfl

/-- Every outcome of the message loop is `ok` or `Unprocessable`. -/
theorem validate_messages_shape (l : List ChatMessage) :
    validate_messages l = .ok () ∨
      ∃ s, validate_messages l = .error (.Unprocessable s) := by
  induction l with
  | nil => exact .inl rfl
  | cons m rest ih =>
    simp only [validate_messages]
    rcases validate_message_content_shape m.content 8000 with h | ⟨s, h⟩
    · rw [h]; exact ih
    · rw [h]; exact .inr ⟨s, rfl⟩

/-- Every rejection of `validate_chat` is an `Unprocessable` error. -/
theorem validate_chat_shape (input : ChatIn) :
    validate_chat input = .ok () ∨
      ∃ s, validate_chat input = .error (.Unprocessable s) := by
  simp only [validate_chat]
  rcases validate_model_name_shape input.model with hm | ⟨s, hm⟩
  · rw [hm]
    by_cases h1 : input.messages.isEmpty
    · rw [if_pos h1]; exact .inr ⟨_, rfl⟩
    · rw [if_neg h1]
      by_cases h2 : input.messages.length > 64
      · rw [if_pos h2]; exact .inr ⟨_, rfl⟩
      · rw [if_neg h2]; exact validate_messages_shape input.messages
  · rw [hm]; exact .inr ⟨s, rfl⟩

/-- What acceptance by `validate_chat` guarantees about the request. -/
theorem validate_chat_ok_facts (input : ChatIn)
    (h : validate_chat input = .ok ()) :
    input.model ≠ "" ∧ input.messages ≠ [] ∧ input.messages.length ≤ 64 ∧
      ∀ m ∈ input.messages, m.content ≠ "" ∧ m.content.length ≤ 8000 := by
  simp only [validate_chat] at h
  rcases validate_model_name_shape input.model with hm | ⟨s, hm⟩
  · rw [hm] at h
    by_cases h1 : input.messages.isEmpty
    · rw [if_pos h1] at h; exact absurd h (by simp)
    · rw [if_neg h1] at h
      by_cases h2 : input.messages.length > 64
      · rw [if_pos h2] at h; exact absurd h (by simp)
      · rw [if_neg h2] at h
        refine ⟨?_, ?_, Nat.not_lt.mp h2, ?_⟩
        · intro hmod
          rw [hmod] at hm
          simp [validate_model_name, trimIsEmpty] at hm
        · intro hnil
          rw [hnil] at h1
          exact h1 rfl
        · intro m hmem
          have := (validate_messages_ok_iff input.messages).mp h m hmem
          exact (validate_message_content_ok_iff m.content 8000).mp this
  · rw [hm] at h; exact absurd h (by simp)

/-- C2.  The claim states that every chat request passing validation goes
through the rate limiter before the provider stream is opened.  The current
`chat` handler refutes this: after `validate_chat` succeeds it opens the
provider stream directly, and no `rate_limit`/`acquire` call occurs at any
point of the handler — its collaborator trace is exactly one `providerOpen`
with no `rateLimitAcquire`. -/
theorem chat_handler_never_calls_rate_limiter
    (prov : ProviderModel) (input : ChatIn)
    (h : validate_chat input = .ok ()) :
    (chat prov input).2 = [.providerOpen] ∧
      PipelineStep.rateLimitAcquire ∉ (chat prov input).2 := by
  have htrace : (chat prov input).2 = [.providerOpen] := by
    simp only [chat, h]
    cases chat_stream prov { model := input.model, messages := input.messages } <;> rfl
  exact ⟨htrace, by rw [htrace]; simp⟩

/-- Witness for C2: a concrete valid request against the fixture provider. -/
theorem chat_handler_never_calls_rate_limiter_witness :
    validate_chat { model := "llama3.2", messages := [{ role := "user", content := "hi" }] } = .ok () ∧
    ((chat demoProvider { model := "llama3.2", messages := [{ role := "user", content := "hi" }] }).2 =
        [.providerOpen] ∧
      PipelineStep.rateLimitAcquire ∉
        (chat demoProvider { model := "llama3.2", messages := [{ role := "user", content := "hi" }] }).2) :=
  ⟨by decide, chat_handler_never_calls_rate_limiter demoProvider
    { model := "llama3.2", messages := [{ role := "user", content := "hi" }] } (by decide)⟩

/-- C8.  A chat request with an empty model identifier, an empty message
list, more than 64 messages, or a message whose content exceeds 8000 is
rejected by `validate_chat` with an `Unprocessable` error before anything
else happens: the handler's collaborator trace is empty, so neither the
rate limiter nor the provider is invoked and limiter state is untouched. -/
theorem invalid_chat_rejected_before_limiter_and_provider
    (prov : ProviderModel) (input : ChatIn)
    (h : input.model = "" ∨ input.messages = [] ∨ 64 < input.messages.length ∨
      ∃ m ∈ input.messages, 8000 < m.content.length) :
    (∃ s, (chat prov input).1 = .error (.Unprocessable s)) ∧
      (chat prov input).2 = [] := by
  have hnotok : validate_chat input ≠ .ok () := by
    intro hok
    obtain ⟨hmodel, hnil, hlen, hmsgs⟩ := validate_chat_ok_facts input hok
    rcases h with h | h | h | ⟨m, hm, hlong⟩
    · exact hmodel h
    · exact hnil h
    · exact absurd hlen (Nat.not_le.mpr h)
    · exact absurd (hmsgs m hm).2 (Nat.not_le.mpr hlong)
  rcases validate_chat_shape input with hok | ⟨s, herr⟩
  · exact absurd hok hnotok
  · refine ⟨⟨s, ?_⟩, ?_⟩ <;> simp [chat, herr]

/-- Witness for C8: the zero-message request of Scenario D. -/
theorem invalid_chat_rejected_before_limiter_and_provider_witness :
    (({ model := "llama3.2", messages := [] } : ChatIn).model = "" ∨
      ({ model := "llama3.2", messages := [] } : ChatIn).messages = [] ∨
      64 < ({ model := "llama3.2", messages := [] } : ChatIn).messages.length ∨
      ∃ m ∈ ({ model := "llama3.2", messages := [] } : ChatIn).messages,
        8000 < m.content.length) ∧
    ((∃ s, (chat demoProvider { model := "llama3.2", messages := [] }).1 =
        .error (.Unprocessable s)) ∧
      (chat demoProvider { model := "llama3.2", messages := [] }).2 = []) :=
  ⟨.inr (.inl rfl),
   invalid_chat_rejected_before_limiter_and_provider demoProvider
     { model := "llama3.2", messages := [] } (.inr (.inl rfl))⟩

/-- C10.  First conjunct: any chat request containing a message with empty
content is rejected with an `Unprocessable` validation error and the
handler invokes no collaborator (the provider in particular).  Second
conjunct: when the offending message comes first and the other checks pass,
the error is exactly `Unprocessable "message content cannot be empty"`. -/
theorem empty_message_content_rejected :
    (∀ (prov : ProviderModel) (input : ChatIn) (m : ChatMessage),
      m ∈ input.messages → m.content = "" →
      (∃ s, (chat prov input).1 = .error (.Unprocessable s)) ∧
        (chat prov input).2 = []) ∧
    (∀ (prov : ProviderModel) (model r : String) (rest : List ChatMessage),
      validate_model_name model = .ok () → rest.length ≤ 63 →
      (chat prov { model := model, messages := { role := r, content := "" } :: rest }).1 =
          .error (.Unprocessable "message content cannot be empty") ∧
        (chat prov { model := model, messages := { role := r, content := "" } :: rest }).2 = []) := by
  constructor
  · intro prov input m hmem hempty
    have hnotok : validate_chat input ≠ .ok () := by
      intro hok
      obtain ⟨_, _, _, hmsgs⟩ := validate_chat_ok_facts input hok
      exact (hmsgs m hmem).1 hempty
    rcases validate_chat_shape input with hok | ⟨s, herr⟩
    · exact absurd hok hnotok
    · refine ⟨⟨s, ?_⟩, ?_⟩ <;> simp [chat, herr]
  · intro prov model r rest hmodel hlen
    have hval : validate_chat { model := model, messages := { role := r, content := "" } :: rest } =
        .error (.Unprocessable "message content cannot be empty") := by
      simp only [validate_chat, hmodel]
      rw [if_neg (by simp), if_neg (by simp; omega)]
      have hemp : ("" : String).isEmpty = true := rfl
      simp [validate_messages, validate_message_content, hemp]
    refine ⟨?_, ?_⟩ <;> simp [chat, hval]

/-- Witness for C10 at a concrete one-message request with empty content. -/
theorem empty_message_content_rejected_witness :
    (({ role := "user", content := "" } : ChatMessage) ∈
        ({ model := "llama3.2", messages := [{ role := "user", content := "" }] } : ChatIn).messages ∧
      ({ role := "user", content := "" } : ChatMessage).content = "" ∧
      (∃ s, (chat demoProvider
          { model := "llama3.2", messages := [{ role := "user", content := "" }] }).1 =
        .error (.Unprocessable s)) ∧
      (chat demoProvider
          { model := "llama3.2", messages := [{ role := "user", content := "" }] }).2 = []) ∧
    (validate_model_name "llama3.2" = .ok () ∧
      (chat demoProvider { model := "llama3.2", messages := [{ role := "user", content := "" }] }).1 =
        .error (.Unprocessable "message content cannot be empty")) :=
  ⟨⟨List.mem_cons_self _ _, rfl,
    (empty_message_content_rejected.1 demoProvider
      { model := "llama3.2", messages := [{ role := "user", content := "" }] }
      { role := "user", content := "" } (List.mem_cons_self _ _) rfl).1,
    (empty_message_content_rejected.1 demoProvider
      { model := "llama3.2", messages := [{ role := "user", content := "" }] }
      { role := "user", content := "" } (List.mem_cons_self _ _) rfl).2⟩,
   ⟨by decide,
    (empty_message_content_rejected.2 demoProvider "llama3.2" "user" []
      (by decide) (by decide)).1⟩⟩

/-- C7.  Incremental forwarding is one event per stream element: the map is
length-preserving, an `Ok` chunk becomes a `chunk` event carrying its JSON
encoding, an error becomes an `error` event carrying the JSON error object,
every mapped element is an `Ok` SSE item (the connection is never closed by
an error — it is delivered in-band), and no `chunk` event ever follows an
`error` event. -/
theorem sse_forwarding_one_event_per_element
    (d : FrameDecoder) (model : String)
    (chunks : List (Except String (List Char))) (buf : List Char) :
    ((chat_stream_run d model chunks buf).map sse_map_item).length =
        (chat_stream_run d model chunks buf).length ∧
    (∀ (i : Nat) (c : ChatChunk),
      (chat_stream_run d model chunks buf).get? i = some (.ok c) →
      ((chat_stream_run d model chunks buf).map sse_map_item).get? i =
        some (.ok { event := "chunk", data := chatChunkJson c })) ∧
    (∀ (i : Nat) (e : ModelError),
      (chat_stream_run d model chunks buf).get? i = some (.error e) →
      ((chat_stream_run d model chunks buf).map sse_map_item).get? i =
        some (.ok { event := "error", data := .obj [("error", .str e.toString)] })) ∧
    (∀ x ∈ (chat_stream_run d model chunks buf).map sse_map_item,
      ∃ ev, x = .ok ev) ∧
    (∀ (i j : Nat) (ei ej : SseEvent), i < j →
      ((chat_stream_run d model chunks buf).map sse_map_item).get? i = some (.ok ei) →
      ei.event = "error" →
      ((chat_stream_run d model chunks buf).map sse_map_item).get? j = some (.ok ej) →
      ej.event ≠ "chunk") := by
  refine ⟨List.length_map _ _, ?_, ?_, ?_, ?_⟩
  · intro i c h
    rw [List.get?_map, h]; rfl
  · intro i e h
    rw [List.get?_map, h]; rfl
  · intro x hx
    obtain ⟨y, _, rfl⟩ := List.mem_map.mp hx
    cases y with
    | ok c => exact ⟨_, rfl⟩
    | error e => exact ⟨_, rfl⟩
  · intro i j ei ej hij hi hie hj
    rw [List.get?_map] at hi hj
    cases hout : (chat_stream_run d model chunks buf).get? i with
    | none => rw [hout] at hi; exact absurd hi (by simp)
    | some oi =>
      rw [hout] at hi
      cases oi with
      | ok c =>
        have : ei = { event := "chunk", data := chatChunkJson c } := by
          simpa [sse_map_item] using hi.symm
        rw [this] at hie
        exact absurd hie (by simp)
      | error e =>
        have hlast := chat_stream_run_error_last d model chunks buf i e hout
        have hjlt : j < (chat_stream_run d model chunks buf).length := by
          by_contra hge
          rw [List.get?_eq_none.mpr (Nat.not_lt.mp hge)] at hj
          exact absurd hj (by simp)
        omega

/-- Witness for C7: a stream delivering one good frame and then a network
error maps to a `chunk` event followed by an `error` event. -/
theorem sse_forwarding_one_event_per_element_witness :
    (chat_stream_run demoDecoder "m"
        [.ok (demoFrameHi ++ ['\n']), .error "reset"] []).get? 0 =
      some (.ok { model := "m", content := "x", done := false }) ∧
    ((chat_stream_run demoDecoder "m"
        [.ok (demoFrameHi ++ ['\n']), .error "reset"] []).map sse_map_item).get? 0 =
      some (.ok { event := "chunk",
                  data := chatChunkJson ({ model := "m", content := "x", done := false }) }) ∧
    (chat_stream_run demoDecoder "m"
        [.ok (demoFrameHi ++ ['\n']), .error "reset"] []).get? 1 =
      some (.error (.Upstream "reset")) ∧
    ((chat_stream_run demoDecoder "m"
        [.ok (demoFrameHi ++ ['\n']), .error "reset"] []).map sse_map_item).get? 1 =
      some (.ok { event := "error",
                  data := .obj [("error", .str (ModelError.Upstream "reset").toString)] }) :=
  ⟨by decide,
   (sse_forwarding_one_event_per_element demoDecoder "m"
      [.ok (demoFrameHi ++ ['\n']), .error "reset"] []).2.1 0
      { model := "m", content := "x", done := false } (by decide),
   by decide,
   (sse_forwarding_one_event_per_element demoDecoder "m"
      [.ok (demoFrameHi ++ ['\n']), .error "reset"] []).2.2.1 1
      (.Upstream "reset") (by decide)⟩

/-! ## Token bucket: spec-side step and the refill/consume claims -/

/-- Spec-side `acquire` step, following §4.1 of the specification word for
word: "Compute `elapsed = now - last_refill` in seconds.  If `elapsed > 0`:
`refill = floor(elapsed * refill_rate / 60)`; if `refill > 0`, set
`available = min(available + refill, capacity)` and `last_refill = now`.
If `available > 0`: decrement `available` by 1, return allow = true.  Else
return allow = false." -/
def allowSpecStep (b : TokenBucket) (now : Rat) : Bool × TokenBucket :=
  let elapsed : Rat := now - b.last
  let refill : Int := Rat.floor (elapsed * (b.rate_per_min : Rat) / 60)
  let b' : TokenBucket :=
    if elapsed > 0 ∧ refill > 0 then
      { b with available := min (b.available + refill) (b.burst : Int), last := now }
    else b
  if b'.available > 0 then (true, { b' with available := b'.available - 1 })
  else (false, b')

/-- C3.  First conjunct: `TokenBucket::allow` computes exactly the
spec-side step (the code's `per_sec * elapsed` equals the claim's
`elapsed * refill_rate / 60`, and its nested `if elapsed > 0 { if refill >
0 { .. } }` is the claim's guarded update).  Second conjunct, Scenario A:
on a fresh bucket with `rate_per_min = 60` and `burst = 20`, twenty calls
at time 0 all allow, the 21st at time 0 denies, and of two further calls at
time 1 exactly the first is allowed. -/
theorem tokenBucket_allow_matches_spec_and_scenarioA :
    (∀ (b : TokenBucket) (now : Rat), b.allow now = allowSpecStep b now) ∧
    (allowRun (TokenBucket.new 60 20 0) (List.replicate 21 0 ++ [1, 1])).1 =
      List.replicate 20 true ++ [false, true, false] := by
  constructor
  · intro b now
    simp only [TokenBucket.allow, allowSpecStep]
    have harg : (b.rate_per_min : Rat) / 60 * (now - b.last) =
        (now - b.last) * (b.rate_per_min : Rat) / 60 := by ring
    rw [harg]
    by_cases h1 : now - b.last > 0 <;>
      by_cases h2 : Rat.floor ((now - b.last) * (b.rate_per_min : Rat) / 60) > 0 <;>
      simp [h1, h2]
  · decide

/-- One `allow` call keeps `available` within `[0, burst]`, moves `last`
forward only (and never past `now`), and leaves the parameters unchanged. -/
theorem allow_step_bounds (b : TokenBucket) (now : Rat)
    (h0 : 0 ≤ b.available) (h1 : b.available ≤ (b.burst : Int)) (h2 : b.last ≤ now) :
    0 ≤ ((b.allow now).2).available ∧
      ((b.allow now).2).available ≤ (b.burst : Int) ∧
      b.last ≤ ((b.allow now).2).last ∧ ((b.allow now).2).last ≤ now ∧
      ((b.allow now).2).burst = b.burst := by
  simp only [TokenBucket.allow]
  by_cases hel : now - b.last > 0
  · by_cases href : Rat.floor ((b.rate_per_min : Rat) / 60 * (now - b.last)) > 0
    · simp only [if_pos hel, if_pos href]
      have hge : 0 ≤ min (b.available +
          Rat.floor ((b.rate_per_min : Rat) / 60 * (now - b.last))) (b.burst : Int) :=
        le_min (add_nonneg h0 (le_of_lt href)) (Int.natCast_nonneg _)
      have hle : min (b.available +
            Rat.floor ((b.rate_per_min : Rat) / 60 * (now - b.last))) (b.burst : Int) ≤
          (b.burst : Int) := min_le_right _ _
      by_cases hpos : min (b.available +
          Rat.floor ((b.rate_per_min : Rat) / 60 * (now - b.last))) (b.burst : Int) > 0
      · simp only [if_pos hpos]
        exact ⟨by omega, by omega, h2, le_refl _, trivial⟩
      · simp only [if_neg hpos]
        exact ⟨hge, hle, h2, le_refl _, trivial⟩
    · simp only [if_pos hel, if_neg href]
      by_cases hpos : b.available > 0
      · simp only [if_pos hpos]
        exact ⟨by omega, by omega, le_refl _, h2, trivial⟩
      · simp only [if_neg hpos]
        exact ⟨h0, h1, le_refl _, h2, trivial⟩
  · simp only [if_neg hel]
    by_cases hpos : b.available > 0
    · simp only [if_pos hpos]
      exact ⟨by omega, by omega, le_refl _, h2, trivial⟩
    · simp only [if_neg hpos]
      exact ⟨h0, h1, le_refl _, h2, trivial⟩

/-- The invariant carried along a whole call sequence: starting from a
bucket within bounds and call instants that never go backwards, every state
of the trace is within bounds and `last` never decreases. -/
theorem allowTrace_inv :
    ∀ (times : List Rat) (b : TokenBucket),
      0 ≤ b.available → b.available ≤ (b.burst : Int) →
      List.Chain' (· ≤ ·) (b.last :: times) →
      (∀ b' ∈ allowTrace b times,
        0 ≤ b'.available ∧ b'.available ≤ (b.burst : Int)) ∧
      List.Chain' (fun x y => x.last ≤ y.last) (b :: allowTrace b times)
  | [], b, _, _, _ => by simp [allowTrace]
  | t :: ts, b, h0, h1, hc => by
    have hbt : b.last ≤ t := (List.chain'_cons.mp hc).1
    have hcts : List.Chain' (· ≤ ·) (t :: ts) := (List.chain'_cons.mp hc).2
    obtain ⟨s0, s1, s2, s3, s4⟩ := allow_step_bounds b t h0 h1 hbt
    have hc' : List.Chain' (· ≤ ·) (((b.allow t).2).last :: ts) := by
      cases ts with
      | nil => exact List.chain'_singleton _
      | cons u us =>
        exact List.chain'_cons.mpr
          ⟨le_trans s3 (List.chain'_cons.mp hcts).1, (List.chain'_cons.mp hcts).2⟩
    have ih := allowTrace_inv ts ((b.allow t).2) s0 (by rw [s4]; exact s1) hc'
    constructor
    · intro b'' hmem
      simp only [allowTrace, List.mem_cons] at hmem
      rcases hmem with rfl | hmem
      · exact ⟨s0, s1⟩
      · have := ih.1 b'' hmem
        rw [s4] at this
        exact this
    · show List.Chain' _ (b :: ((b.allow t).2) :: allowTrace ((b.allow t).2) ts)
      exact List.chain'_cons.mpr ⟨s2, ih.2⟩

/-- C4.  For a bucket created by `new(rate_per_min, burst)` and any
sequence of `allow` calls at non-decreasing instants, `available` stays
within `[0, burst]` after every call and the `last` stamps along the trace
are non-decreasing. -/
theorem tokenBucket_available_bounded_last_monotone
    (rate burst : Nat) (t0 : Rat) (times : List Rat)
    (h : List.Chain' (· ≤ ·) (t0 :: times)) :
    (∀ b' ∈ allowTrace (TokenBucket.new rate burst t0) times,
      0 ≤ b'.available ∧ b'.available ≤ (burst : Int)) ∧
    List.Chain' (fun x y => x.last ≤ y.last)
      (TokenBucket.new rate burst t0 ::
        allowTrace (TokenBucket.new rate burst t0) times) := by
  have hres := allowTrace_inv times (TokenBucket.new rate burst t0)
    (by simp [TokenBucket.new]) (by simp [TokenBucket.new])
    (by simpa [TokenBucket.new] using h)
  simpa [TokenBucket.new] using hres

/-- Witness for C4: the 60-per-minute, burst-20 bucket called at instants
0 and 1. -/
theorem tokenBucket_available_bounded_last_monotone_witness :
    List.Chain' (· ≤ ·) ((0 : Rat) :: [0, 1]) ∧
    ((∀ b' ∈ allowTrace (TokenBucket.new 60 20 0) [0, 1],
        0 ≤ b'.available ∧ b'.available ≤ (20 : Int)) ∧
      List.Chain' (fun x y => x.last ≤ y.last)
        (TokenBucket.new 60 20 0 :: allowTrace (TokenBucket.new 60 20 0) [0, 1])) :=
  ⟨by norm_num [List.chain'_cons],
   tokenBucket_available_bounded_last_monotone 60 20 0 [0, 1]
     (by norm_num [List.chain'_cons])⟩

end DeeperSensor
